/-
Verification of the stamped-management surveillance pipeline.

This file gives a shallow embedding, in Lean 4, of the parts of the code base
that the specification's claims are about:

  * src/utils/camera_manager.py   (CameraStream._capture_loop failure counter)
  * src/models/crowd_detection.py (NMS, rotation mapping, count smoothing)
  * src/app.py                    (frame cache freshness, process_frame dispatch)
  * src/models/weapon_detection.py (cache, graceful degradation, class filter)
  * src/models/face_recognition_module.py (reference upload atomicity)

Machine integers in the Python source are unbounded (Python ints) or int64
numpy values far from overflow at the pixel scales involved; they are modelled
as ℤ / ℕ.  Float arithmetic (0.35 threshold, 1e-6 epsilon, time stamps) is
idealised as exact rational arithmetic ℚ; comparisons used inside executable
definitions are implemented by exact integer cross-multiplication and proved
equivalent to the ℚ formula.  Frames, images, embeddings and other opaque
OpenCV/torch values are type parameters, and the neural/OpenCV backends are
oracle functions passed in as structures.
-/
import Mathlib

/-! ## Generic insertion sort

numpy's `argsort` (used by `_non_max_suppression`) and Python's `sorted`
(used by `upload_reference_face`) sort by a key; numpy's default quicksort
leaves the relative order of equal keys unspecified.  We model both with a
deterministic structural insertion sort so that concrete instances evaluate
inside the kernel. -/

/-- Insert `b` into `l` in front of the first element `a` with `le b a`. -/
def insertOrd {α : Type _} (le : α → α → Bool) (b : α) : List α → List α
  | [] => [b]
  | a :: t => if le b a then b :: a :: t else a :: insertOrd le b t

/-- Insertion sort by the Boolean relation `le`. -/
def sortOrd {α : Type _} (le : α → α → Bool) : List α → List α
  | [] => []
  | a :: t => insertOrd le a (sortOrd le t)

/-! ## CameraStream._capture_loop (src/utils/camera_manager.py lines 78-113)

One loop iteration is driven by one of three events: the device reported
closed and reopening failed (sleep, `continue`, counter untouched), a read
failed (`not ret or frame is None`), or a read succeeded.  The loop state the
claim is about is the local `consecutive_failures` counter. -/

inductive CapEvent
  | deviceLost
  | readFail
  | readOk
  deriving DecidableEq

/-- One iteration of `_capture_loop` acting on `consecutive_failures`.
Returns the new counter together with whether the log/sleep/reset branch
(`if consecutive_failures > 10`) fired this iteration. -/
def captureStep (consecutive_failures : ℕ) : CapEvent → ℕ × Bool
  | CapEvent.deviceLost => (consecutive_failures, false)
  | CapEvent.readFail =>
      let c := consecutive_failures + 1
      if 10 < c then (0, true) else (c, false)
  | CapEvent.readOk => (0, false)

/-- Run the capture loop over a list of events starting from counter `c`;
returns the final counter and how many times the reset branch fired. -/
def captureRun : ℕ → List CapEvent → ℕ × ℕ
  | c, [] => (c, 0)
  | c, e :: evs =>
      let s := captureStep c e
      let r := captureRun s.1 evs
      (r.1, (if s.2 then 1 else 0) + r.2)

/-! ## Boxes and non-max suppression
(src/models/crowd_detection.py lines 159-182) -/

/-- A detection box `(x, y, w, h)` in pixel coordinates. -/
structure Box where
  x : ℤ
  y : ℤ
  w : ℤ
  h : ℤ
  deriving DecidableEq

/-- Box area as computed in `_non_max_suppression`:
`(x2 - x1) * (y2 - y1) = w * h`. -/
def area (b : Box) : ℤ := b.w * b.h

/-- Intersection area of two boxes, as computed in the NMS loop:
`w = max(0, xx2 - xx1)`, `h = max(0, yy2 - yy1)`, intersection `w * h`. -/
def interArea (a b : Box) : ℤ :=
  max 0 (min (a.x + a.w) (b.x + b.w) - max a.x b.x) *
    max 0 (min (a.y + a.h) (b.y + b.h) - max a.y b.y)

/-- The overlap ratio of the NMS loop, idealised over ℚ:
`overlap = (w * h) / (areas[order[1:]] + 1e-6)` — intersection area divided by
the area of the *compared* box (not true IoU). -/
def overlapQ (kept cand : Box) : ℚ :=
  (interArea kept cand : ℚ) / ((area cand : ℚ) + 1 / 1000000)

/-- Executable version of `overlapQ kept cand ≤ 0.35` (the survival test
`overlap <= overlap_thresh`), implemented by exact integer cross
multiplication against the denominator `area + 1e-6 = (10^6*area + 1)/10^6`.
Proved equivalent to the ℚ comparison in `overlapLeThresh_iff`. -/
def overlapLeThresh (kept cand : Box) : Bool :=
  let I := interArea kept cand
  let D := 1000000 * area cand + 1
  if 0 < D then decide (20000000 * I ≤ 7 * D) else decide (7 * D ≤ 20000000 * I)

/-- Descending comparison on areas, for `areas.argsort()[::-1]`.  numpy's
quicksort leaves tie order unspecified; the embedding fixes first-come ties. -/
def boxDescLe (a b : Box) : Bool := decide (area b ≤ area a)

/-- Sort boxes by area, largest first. -/
def sortByAreaDesc (boxes : List Box) : List Box := sortOrd boxDescLe boxes

/-- The greedy NMS loop: take the largest remaining box, keep it, and retain
only the boxes whose overlap with it is ≤ the 0.35 threshold
(`inds = np.where(overlap <= overlap_thresh)`).  The `while order.size > 0`
loop removes at least one box per iteration, so fuel equal to the initial
length never runs out. -/
def nmsLoop : ℕ → List Box → List Box
  | 0, _ => []
  | _ + 1, [] => []
  | fuel + 1, b :: rest => b :: nmsLoop fuel (rest.filter (fun c => overlapLeThresh b c))

/-- Function `CrowdDetector._non_max_suppression` with the default 0.35 threshold. -/
def non_max_suppression (boxes : List Box) : List Box :=
  nmsLoop boxes.length (sortByAreaDesc boxes)

/-- Spec-side overlap test, written directly from the spec's words:
the overlap `intersection-area / area-of-comparison-box` (with the code's
`1e-6` regulariser) exceeds the 0.35 threshold. -/
def overlapGtQ (kept cand : Box) : Bool := decide (7 / 20 < overlapQ kept cand)

/-- Modelled from the spec: "sort by box area descending; repeatedly keep the
highest-area remaining box, ... discard any box whose overlap with the kept
box exceeds a 0.35 threshold, continue until no boxes remain". -/
def nmsSpecLoop : ℕ → List Box → List Box
  | 0, _ => []
  | _ + 1, [] => []
  | fuel + 1, b :: rest => b :: nmsSpecLoop fuel (rest.filter (fun c => !(overlapGtQ b c)))

/-- Modelled from the spec: greedy area-sorted non-max suppression. -/
def nmsSpec (boxes : List Box) : List Box :=
  nmsSpecLoop boxes.length (sortByAreaDesc boxes)

/-- Test box of area 100 for the NMS tie-break example. -/
def boxA : Box := ⟨0, 0, 10, 10⟩

/-- Test box of area 80 whose intersection with `boxA` is 40, so its overlap
ratio relative to its own area is 40/80 = 0.5. -/
def boxB : Box := ⟨6, 0, 8, 10⟩

/-! ## Rotation mapping
(src/models/crowd_detection.py `_map_rotated_rect`, lines 129-157) -/

/-- The three orientations used by `_run_multi_cascade`. -/
inductive Rotation
  | rnone
  | rcw
  | rccw
  deriving DecidableEq

/-- Per-corner inverse transform of `_map_rotated_rect`:
cw: `orig_x = w - 1 - py, orig_y = px`; ccw: `orig_x = py, orig_y = h - 1 - px`. -/
def mapPoint (rotation : Rotation) (w h : ℤ) (p : ℤ × ℤ) : ℤ × ℤ :=
  match rotation with
  | Rotation.rcw => (w - 1 - p.2, p.1)
  | Rotation.rccw => (p.2, h - 1 - p.1)
  | Rotation.rnone => p

/-- Numpy clamp `np.clip(v, lo, hi)` for integers with `lo ≤ hi`. -/
def clip (v lo hi : ℤ) : ℤ := max lo (min v hi)

/-- Function `CrowdDetector._map_rotated_rect`: rotate the 4 corners of
`rect = (x, y, rw, rh)` back into the original `h × w` frame, take the
axis-aligned bounding box of the mapped corners clamped to `[0, w-1] × [0, h-1]`,
and force a minimum 1×1 size. -/
def map_rotated_rect (rect : Box) (h w : ℤ) (rotation : Rotation) : Box :=
  let c1 := mapPoint rotation w h (rect.x, rect.y)
  let c2 := mapPoint rotation w h (rect.x + rect.w, rect.y)
  let c3 := mapPoint rotation w h (rect.x, rect.y + rect.h)
  let c4 := mapPoint rotation w h (rect.x + rect.w, rect.y + rect.h)
  let x_min := clip (min (min c1.1 c2.1) (min c3.1 c4.1)) 0 (w - 1)
  let y_min := clip (min (min c1.2 c2.2) (min c3.2 c4.2)) 0 (h - 1)
  let x_max := clip (max (max c1.1 c2.1) (max c3.1 c4.1)) 0 (w - 1)
  let y_max := clip (max (max c1.2 c2.2) (max c3.2 c4.2)) 0 (h - 1)
  ⟨x_min, y_min, max 1 (x_max - x_min), max 1 (y_max - y_min)⟩

/-! ## Count smoothing
(src/models/crowd_detection.py `detect_faces`, lines 70-98) -/

/-- Integer median `int(np.median(l))` for natural-number counts: sort ascending; odd length
takes the middle element, even length the truncated mean of the two middle
elements (float `.5` values truncate down, matching `Nat` division). -/
def medianInt (l : List ℕ) : ℕ :=
  let s := sortOrd (fun a b => decide (a ≤ b)) l
  let n := s.length
  if n % 2 = 1 then s.getD (n / 2) 0
  else (s.getD (n / 2 - 1) 0 + s.getD (n / 2) 0) / 2

/-- The window update of `detect_faces`: append the raw count, then
`if len(window) > smoothing_window: window.pop(0)`. -/
def updateWindow (smoothing_window : ℕ) (window : List ℕ) (current_count : ℕ) : List ℕ :=
  let appended := window ++ [current_count]
  if smoothing_window < appended.length then appended.tail else appended

/-- The displayed count of `detect_faces`: the median of the window when it is
nonempty, otherwise the raw count (lines 84-89). -/
def smoothedDisplay (window : List ℕ) (current_count : ℕ) : ℕ :=
  if window.isEmpty then current_count else medianInt window

/-- The count-tracking portion of one `detect_faces` call for one camera:
returns the new window and the displayed (smoothed) count. -/
def detect_faces_count (smoothing_window : ℕ) (window : List ℕ) (current_count : ℕ) :
    List ℕ × ℕ :=
  let w := updateWindow smoothing_window window current_count
  (w, smoothedDisplay w current_count)

/-- The per-camera window after a sequence of `detect_faces` calls with the
given raw counts, starting from the empty window a new camera gets. -/
def windowAfter (smoothing_window : ℕ) (raws : List ℕ) : List ℕ :=
  raws.foldl (updateWindow smoothing_window) []

/-- The sequence of displayed counts over a sequence of `detect_faces` calls. -/
def displaysFor (smoothing_window : ℕ) (raws : List ℕ) : List ℕ :=
  ((raws.foldl
      (fun st c =>
        let r := detect_faces_count smoothing_window st.1 c
        (r.1, r.2 :: st.2))
      (([], []) : List ℕ × List ℕ)).2).reverse

/-! ## Frame cache (src/app.py lines 91-118) and weapon cache
(src/models/weapon_detection.py lines 39-40, 105-109)

Wall-clock times are idealised as exact rationals. -/

/-- An entry of `processed_frames[camera_id]`: encoded frame bytes plus its
creation timestamp. -/
structure CacheEntry (B : Type) where
  frame : B
  timestamp : ℚ

/-- Constant `FRAME_CACHE_TTL = 0.2` seconds. -/
def FRAME_CACHE_TTL : ℚ := 1 / 5

/-- The freshness check of `process_frame`
(`if cached and (now - cached['timestamp']) <= FRAME_CACHE_TTL: return cached['frame']`). -/
def frameCacheLookup {B : Type} (cache_bucket : String → Option (CacheEntry B))
    (detection_type : String) (now : ℚ) : Option B :=
  match cache_bucket detection_type with
  | some cached =>
      if now - cached.timestamp ≤ FRAME_CACHE_TTL then some cached.frame else none
  | none => none

/-- One accepted weapon detection dict `{'class', 'confidence', 'bbox'}`. -/
structure WeaponDetOut where
  cls : String
  confidence : ℚ
  bbox : ℤ × ℤ × ℤ × ℤ
  deriving DecidableEq

/-- An entry of `WeaponDetector.cache`. -/
structure WeaponCacheEntry (F : Type) where
  frame : F
  weapon_detected : Bool
  detections : List WeaponDetOut
  timestamp : ℚ

/-- Constant `self.cache_ttl = 0.4` seconds. -/
def weapon_cache_ttl : ℚ := 2 / 5

/-- The cache check of `detect_weapons` (lines 105-109): no lookup when
`camera_id` is None; otherwise return the entry iff it exists and
`time.time() - cached['timestamp'] <= self.cache_ttl`. -/
def weaponCacheLookup {F : Type} (cache : ℤ → Option (WeaponCacheEntry F))
    (cache_key : Option ℤ) (now ttl : ℚ) : Option (WeaponCacheEntry F) :=
  match cache_key with
  | none => none
  | some k =>
      match cache k with
      | none => none
      | some cached => if now - cached.timestamp ≤ ttl then some cached else none

/-! ## process_frame dispatch (src/app.py lines 96-186) -/

/-- The global `settings` dict of app.py. -/
structure Settings where
  crowd_threshold : ℤ
  enable_crowd_detection : Bool
  enable_face_recognition : Bool
  enable_weapon_detection : Bool
  show_overlays : Bool
  deriving DecidableEq

/-- The detector stages and codecs `process_frame` calls, as oracle
functions over abstract frame (`F`) and encoded-bytes (`B`) types.
`weapon_detect` is total because `detect_weapons` catches its own exceptions
and returns `(frame, False, [])` on error, which the app-level
`try/except ... pass` mirrors. -/
structure Stages (F B : Type) where
  crowd_detect : F → ℕ → F × ℕ × List Box
  crowd_overlay : F → ℕ → ℤ → F
  face_detect : F → F × Bool × ℕ
  face_overlay : F → Bool → ℕ → F
  weapon_detect : F → ℕ → F × Bool × List WeaponDetOut
  weapon_overlay : F → Bool → List WeaponDetOut → F
  encode : F → Option B
  placeholder : F

/-- The capture + dispatch + encode section of `process_frame`
(lines 121-186), executed on a cache miss: placeholder when the camera has no
frame, then the `if/elif` chain on `detection_type` with per-stage enable
flags, then JPEG encoding (empty bytes when encoding fails). -/
def computeFrame {F B : Type} (S : Stages F B) (emptyB : B) (st : Settings)
    (frame : Option F) (camera_id : ℕ) (detection_type : String) : B :=
  match frame with
  | none => (S.encode S.placeholder).getD emptyB
  | some f =>
      let processed :=
        if detection_type = "crowd" ∧ st.enable_crowd_detection then
          let r := S.crowd_detect f camera_id
          if st.show_overlays then S.crowd_overlay r.1 r.2.1 st.crowd_threshold else r.1
        else if detection_type = "face" ∧ st.enable_face_recognition then
          let r := S.face_detect f
          if st.show_overlays then S.face_overlay r.1 r.2.1 r.2.2 else r.1
        else if detection_type = "weapon" ∧ st.enable_weapon_detection then
          let r := S.weapon_detect f camera_id
          if st.show_overlays then S.weapon_overlay r.1 r.2.1 r.2.2 else r.1
        else if detection_type = "all" then
          let t1 := if st.enable_crowd_detection then (S.crowd_detect f camera_id).1 else f
          let t2 := if st.enable_face_recognition then (S.face_detect t1).1 else t1
          if st.enable_weapon_detection then
            let r := S.weapon_detect t2 camera_id
            if r.2.1 ∧ st.show_overlays then S.weapon_overlay r.1 r.2.1 r.2.2 else r.1
          else t2
        else f
      (S.encode processed).getD emptyB

/-- Function `process_frame` with its double-checked cache: fast-path freshness check
at time `now`, re-check after acquiring the per-(camera, stage) lock at time
`later`, and on a genuine miss compute, publish and return.  The returned pair
is the bytes and the updated cache bucket for this camera. -/
def process_frame {F B : Type} (S : Stages F B) (emptyB : B) (st : Settings)
    (cache_bucket : String → Option (CacheEntry B)) (frame : Option F)
    (camera_id : ℕ) (detection_type : String) (now later : ℚ) :
    B × (String → Option (CacheEntry B)) :=
  match frameCacheLookup cache_bucket detection_type now with
  | some b => (b, cache_bucket)
  | none =>
      match frameCacheLookup cache_bucket detection_type later with
      | some b => (b, cache_bucket)
      | none =>
          let bytes := computeFrame S emptyB st frame camera_id detection_type
          (bytes, fun k => if k = detection_type then some ⟨bytes, later⟩ else cache_bucket k)

/-- The app's initial `settings` values. -/
def defaultSettings : Settings := ⟨8, true, true, true, true⟩

/-- A concrete stage assembly over `F = B = ℕ` used to instantiate the
dispatch theorems on closed inputs. -/
def natStages : Stages ℕ ℕ where
  crowd_detect f _ := (f + 1, 0, [])
  crowd_overlay f _ _ := f + 10
  face_detect f := (f + 2, false, 0)
  face_overlay f _ _ := f + 20
  weapon_detect f _ := (f + 3, false, [])
  weapon_overlay f _ _ := f + 30
  encode f := some (f * 2)
  placeholder := 0

/-! ## WeaponDetector (src/models/weapon_detection.py) -/

/-- Lower-casing of ASCII letters, as `.lower()` acts on the class labels in
play (all ASCII). -/
def lowerChar (c : Char) : Char :=
  if 'A' ≤ c ∧ c ≤ 'Z' then Char.ofNat (c.toNat + 32) else c

/-- Python `s.lower()` on a Lean string. -/
def lowerStr (s : String) : String := String.mk (s.data.map lowerChar)

/-- Whether `needle` is an initial segment of `hay`. -/
def leadsWith : List Char → List Char → Bool
  | [], _ => true
  | _ :: _, [] => false
  | a :: as, b :: bs => a == b && leadsWith as bs

/-- Python's substring test `needle in hay` on character lists. -/
def hasSub (needle : List Char) : List Char → Bool
  | [] => leadsWith needle []
  | b :: bs => leadsWith needle (b :: bs) || hasSub needle bs

/-- Lookup `self.keyword_map.get(key, {key})`: the expansion keywords of a target
class, defaulting to the singleton of the class itself. -/
def keywordMap (key : String) : List String :=
  if key = "gun" then ["gun", "pistol", "firearm", "revolver", "handgun", "weapon"]
  else if key = "knife" then ["knife", "dagger", "blade", "sword", "weapon"]
  else [key]

/-- The constructor's `[cls.lower() for cls in (target_classes or ['knife', 'gun'])]`
at the default / app-configured value `['knife', 'gun']`. -/
def default_target_classes : List String := (["knife", "gun"]).map lowerStr

/-- Function `WeaponDetector._is_target_class` (lines 82-90): lower-case the label
(`(label or "").lower()`), accept it if it equals a target class, else accept
it if any expansion keyword of any target class occurs in it as a substring. -/
def is_target_class (target_classes : List String) (label : Option String) : Bool :=
  let l := lowerStr (label.getD "")
  if target_classes.contains l then true
  else target_classes.any (fun key => (keywordMap key).any (fun kw => hasSub kw.data l.data))

/-- The YOLO backend of `detect_weapons`, as oracles: `inference` returns the
raw `(x1, y1, x2, y2, conf, cls_id)` rows of `result.boxes.data`, or `none`
when the inference call raises (the `except` path); `names` is the class-name
table with its `str(cls_id)` fallback; `annotate` draws one detection's
rectangle and label onto the frame. -/
structure WeaponBackend (F : Type) where
  inference : F → Option (List (ℤ × ℤ × ℤ × ℤ × ℚ × ℕ))
  names : ℕ → String
  annotate : F → WeaponDetOut → F

/-- The fields of `WeaponDetector` that `detect_weapons` reads. -/
structure WeaponDetector (F : Type) where
  model_loaded : Bool
  confidence_threshold : ℚ
  target_classes : List String
  cache : ℤ → Option (WeaponCacheEntry F)
  cache_ttl : ℚ
  backend : WeaponBackend F

/-- Function `WeaponDetector.detect_weapons` (lines 92-161): early return of the input
frame with no detections when the frame is None or the model failed to load;
then the TTL cache (copies returned on a hit); then serialized inference,
confidence/class filtering, annotation, cache publication.  Returns the
`(annotated_frame, weapon_detected, detections)` triple and the new cache. -/
def detect_weapons {F : Type} (d : WeaponDetector F) (frame : Option F)
    (camera_id : Option ℤ) (now : ℚ) :
    (Option F × Bool × List WeaponDetOut) × (ℤ → Option (WeaponCacheEntry F)) :=
  match frame with
  | none => ((none, false, []), d.cache)
  | some f =>
      if d.model_loaded then
        match weaponCacheLookup d.cache camera_id now d.cache_ttl with
        | some cached =>
            ((some cached.frame, cached.weapon_detected, cached.detections), d.cache)
        | none =>
            match d.backend.inference f with
            | none => ((some f, false, []), d.cache)
            | some rows =>
                let step := fun (acc : F × Bool × List WeaponDetOut) row =>
                  let (x1, y1, x2, y2, conf, cls_id) :=
                    (row.1, row.2.1, row.2.2.1, row.2.2.2.1, row.2.2.2.2.1, row.2.2.2.2.2)
                  let class_name := d.backend.names cls_id
                  if conf < d.confidence_threshold then acc
                  else if ¬ is_target_class d.target_classes (some class_name) then acc
                  else
                    let det : WeaponDetOut := ⟨class_name, conf, (x1, y1, x2, y2)⟩
                    (d.backend.annotate acc.1 det, true, acc.2.2 ++ [det])
                let r := rows.foldl step (f, false, [])
                let newCache := fun k =>
                  match camera_id with
                  | some ck => if k = ck then some ⟨r.1, r.2.1, r.2.2, now⟩ else d.cache k
                  | none => d.cache k
                ((some r.1, r.2.1, r.2.2), newCache)
      else ((some f, false, []), d.cache)

/-! ## FaceRecognizer.upload_reference_face
(src/models/face_recognition_module.py lines 119-168) -/

/-- The OpenCV/FaceNet capabilities `upload_reference_face` calls, as oracles
over abstract image/embedding/descriptor/histogram types.
`compute_embedding` returns `none` when the embedder is unavailable or the
embedding has zero norm; `compute_template_features` returns the (possibly
absent) ORB descriptors together with the histogram. -/
structure FaceOracles (Img Emb Desc Hist : Type) where
  decode : List ℕ → Option Img
  resize_if_needed : Img → Img
  to_gray : Img → Img
  extract_face_boxes : Img → List Box
  prepare_face_rgb : Img → Box → Option Img
  compute_embedding : Img → Option Emb
  rgb_to_gray : Img → Img
  compute_template_features : Img → Option Desc × Hist
  desc_len : Desc → ℕ

/-- The recognizer configuration decided at construction. -/
structure FaceConfig where
  face_cascade_loaded : Bool
  engine : String
  has_embedder : Bool
  deriving DecidableEq

/-- The mutable reference state of `FaceRecognizer`. -/
structure FaceRefState (Img Emb Desc Hist : Type) where
  reference_embedding : Option Emb
  reference_name : String
  reference_template : Option Img
  reference_descriptors : Option Desc
  reference_histogram : Option Hist

/-- Function `FaceRecognizer.upload_reference_face`: decode the uploaded bytes, detect
faces, crop the largest, and store either a FaceNet embedding or ORB template
features; every failure path returns `False` before any state field is
assigned. -/
def upload_reference_face {Img Emb Desc Hist : Type}
    (O : FaceOracles Img Emb Desc Hist) (C : FaceConfig)
    (st : FaceRefState Img Emb Desc Hist) (image_data : List ℕ) (name : String) :
    Bool × FaceRefState Img Emb Desc Hist :=
  if C.face_cascade_loaded = false then (false, st)
  else
    match O.decode image_data with
    | none => (false, st)
    | some img0 =>
        let img := O.resize_if_needed img0
        let gray := O.to_gray img
        let faces := O.extract_face_boxes gray
        if faces.isEmpty then (false, st)
        else
          match (sortOrd boxDescLe faces).head? with
          | none => (false, st)
          | some target_box =>
              match O.prepare_face_rgb img target_box with
              | none => (false, st)
              | some face_rgb =>
                  if C.engine = "facenet" ∧ C.has_embedder then
                    match O.compute_embedding face_rgb with
                    | none => (false, st)
                    | some embedding =>
                        (true, { st with reference_embedding := some embedding,
                                         reference_name := name })
                  else
                    let face_gray := O.rgb_to_gray face_rgb
                    let feats := O.compute_template_features face_gray
                    match feats.1 with
                    | none => (false, st)
                    | some descriptors =>
                        if O.desc_len descriptors < 12 then (false, st)
                        else
                          (true, { st with reference_template := some face_gray,
                                           reference_descriptors := some descriptors,
                                           reference_histogram := some feats.2,
                                           reference_name := name })

/-- An oracle assembly over `ℕ` stand-in types whose decoder rejects every
byte string, for closed instantiation of the upload theorems. -/
def rejectingFaceOracles : FaceOracles ℕ ℕ ℕ ℕ where
  decode _ := none
  resize_if_needed i := i
  to_gray i := i
  extract_face_boxes _ := []
  prepare_face_rgb _ _ := none
  compute_embedding _ := none
  rgb_to_gray i := i
  compute_template_features _ := (none, 0)
  desc_len _ := 0

/-- A concrete nonempty reference state. -/
def someFaceState : FaceRefState ℕ ℕ ℕ ℕ :=
  ⟨some 7, "Alice", none, none, none⟩

/-! ## Sorting lemmas -/

theorem mem_insertOrd {α : Type _} (le : α → α → Bool) (b x : α) (l : List α) :
    x ∈ insertOrd le b l ↔ x = b ∨ x ∈ l := by
  induction l with
  | nil => simp [insertOrd]
  | cons a t ih =>
      unfold insertOrd
      by_cases hba : le b a = true
      · rw [if_pos hba]
        simp only [List.mem_cons]
      · rw [if_neg hba]
        simp only [List.mem_cons, ih]
        tauto

theorem insertOrd_pairwise {α : Type _} (le : α → α → Bool)
    (htrans : ∀ a b c, le a b = true → le b c = true → le a c = true)
    (htot : ∀ a b, le a b = true ∨ le b a = true)
    (b : α) (l : List α) (hl : l.Pairwise (fun x y => le x y = true)) :
    (insertOrd le b l).Pairwise (fun x y => le x y = true) := by
  induction l with
  | nil => simp [insertOrd]
  | cons a t ih =>
      rcases List.pairwise_cons.mp hl with ⟨ha, ht⟩
      unfold insertOrd
      by_cases hba : le b a = true
      · rw [if_pos hba]
        refine List.pairwise_cons.mpr ⟨?_, hl⟩
        intro x hx
        rcases List.mem_cons.mp hx with hx | hx
        · subst hx; exact hba
        · exact htrans b a x hba (ha x hx)
      · rw [if_neg hba]
        refine List.pairwise_cons.mpr ⟨?_, ih ht⟩
        intro x hx
        rcases (mem_insertOrd le b x t).mp hx with hx | hx
        · subst hx
          rcases htot a x with h | h
          · exact h
          · exact absurd h hba
        · exact ha x hx

theorem sortOrd_pairwise {α : Type _} (le : α → α → Bool)
    (htrans : ∀ a b c, le a b = true → le b c = true → le a c = true)
    (htot : ∀ a b, le a b = true ∨ le b a = true)
    (l : List α) : (sortOrd le l).Pairwise (fun x y => le x y = true) := by
  induction l with
  | nil => simp [sortOrd]
  | cons a t ih => exact insertOrd_pairwise le htrans htot a _ ih

theorem sortOrd_eq_self_of_sorted {α : Type _} (le : α → α → Bool) (l : List α)
    (hl : l.Pairwise (fun x y => le x y = true)) : sortOrd le l = l := by
  induction l with
  | nil => rfl
  | cons a t ih =>
      rcases List.pairwise_cons.mp hl with ⟨ha, ht⟩
      unfold sortOrd
      rw [ih ht]
      cases t with
      | nil => rfl
      | cons y t' =>
          unfold insertOrd
          rw [if_pos (ha y (by simp))]

/-! ## Claim C1: the consecutive-failure counter of the capture loop -/

theorem captureRun_counter_le (evs : List CapEvent) :
    ∀ c : ℕ, c ≤ 10 → (captureRun c evs).1 ≤ 10 := by
  induction evs with
  | nil => intro c hc; exact hc
  | cons e evs ih =>
      intro c hc
      cases e with
      | deviceLost => exact ih c hc
      | readFail =>
          show (captureRun (captureStep c CapEvent.readFail).1 evs).1 ≤ 10
          by_cases h10 : 10 < c + 1
          · simp only [captureStep, h10, if_true]
            exact ih 0 (by omega)
          · simp only [captureStep, h10, if_false]
            exact ih (c + 1) (by omega)
      | readOk => exact ih 0 (by omega)

theorem captureRun_replicate_fail (k : ℕ) :
    ∀ c : ℕ, c ≤ 10 →
      captureRun c (List.replicate k CapEvent.readFail) = ((c + k) % 11, (c + k) / 11) := by
  induction k with
  | zero =>
      intro c hc
      simp [captureRun]
      omega
  | succ k ih =>
      intro c hc
      rw [List.replicate_succ]
      show captureRun c (CapEvent.readFail :: List.replicate k CapEvent.readFail) = _
      by_cases h10 : 10 < c + 1
      · have hc10 : c = 10 := by omega
        subst hc10
        simp only [captureRun, captureStep, h10, if_true]
        rw [ih 0 (by omega)]
        refine Prod.ext ?_ ?_ <;> simp <;> omega
      · simp only [captureRun, captureStep, h10, if_false]
        rw [ih (c + 1) (by omega)]
        refine Prod.ext ?_ ?_ <;> simp <;> omega

/-- Claim C1, counterexample: after exactly 10 consecutive failed reads from a
fresh loop, the counter is 10 — not 0 — and the log/sleep/reset branch has not
fired even once; the branch condition is `consecutive_failures > 10`, which a
run of 10 failures never reaches. -/
theorem capture_loop_ten_failures_no_reset :
    (captureRun 0 (List.replicate 10 CapEvent.readFail)).1 = 10 ∧
      (captureRun 0 (List.replicate 10 CapEvent.readFail)).2 = 0 := by
  decide

/-- Claim C1 (amended): the reset branch of the capture loop fires on the 11th
consecutive failed read, not the 10th: the branch fires on an iteration iff
the incremented counter exceeds 10, after k consecutive failures from a fresh
run the counter is `k % 11` and the branch has fired `k / 11` times, and the
stored counter never exceeds 10 on any event sequence. -/
theorem capture_loop_counter_resets_after_eleven :
    (∀ evs : List CapEvent, (captureRun 0 evs).1 ≤ 10) ∧
      (∀ k : ℕ, (captureRun 0 (List.replicate k CapEvent.readFail)).1 = k % 11) ∧
      (∀ k : ℕ, (captureRun 0 (List.replicate k CapEvent.readFail)).2 = k / 11) ∧
      (∀ c : ℕ, (captureStep c CapEvent.readFail).2 = true ↔ 10 ≤ c) := by
  refine ⟨fun evs => captureRun_counter_le evs 0 (by omega), fun k => ?_, fun k => ?_, fun c => ?_⟩
  · rw [captureRun_replicate_fail k 0 (by omega)]
    simp
  · rw [captureRun_replicate_fail k 0 (by omega)]
    simp
  · simp only [captureStep]
    by_cases h10 : 10 < c + 1
    · simp [h10]; omega
    · simp [h10]; omega

/-! ## The overlap threshold test equals the ℚ formula -/

theorem interArea_nonneg (a b : Box) : 0 ≤ interArea a b := by
  unfold interArea
  have h1 : (0 : ℤ) ≤ max 0 (min (a.x + a.w) (b.x + b.w) - max a.x b.x) := le_max_left 0 _
  have h2 : (0 : ℤ) ≤ max 0 (min (a.y + a.h) (b.y + b.h) - max a.y b.y) := le_max_left 0 _
  exact mul_nonneg h1 h2

theorem interArea_comm (a b : Box) : interArea a b = interArea b a := by
  unfold interArea
  rw [min_comm (a.x + a.w), max_comm a.x, min_comm (a.y + a.h), max_comm a.y]

theorem overlapLeThresh_iff (kept cand : Box) :
    overlapLeThresh kept cand = true ↔ overlapQ kept cand ≤ 7 / 20 := by
  unfold overlapLeThresh overlapQ
  have hDden : ((area cand : ℚ) + 1 / 1000000) =
      ((1000000 * area cand + 1 : ℤ) : ℚ) / 1000000 := by
    push_cast
    ring
  rw [hDden, div_div_eq_mul_div]
  by_cases hD : (0 : ℤ) < 1000000 * area cand + 1
  · rw [if_pos hD]
    have hDQ : (0 : ℚ) < ((1000000 * area cand + 1 : ℤ) : ℚ) := by exact_mod_cast hD
    rw [div_le_div_iff₀ hDQ (by norm_num : (0 : ℚ) < 20)]
    simp only [decide_eq_true_eq]
    constructor
    · intro h
      have h' : ((interArea kept cand : ℚ)) * 1000000 * 20 ≤
          7 * ((1000000 * area cand + 1 : ℤ) : ℚ) := by
        have : ((20000000 * interArea kept cand : ℤ) : ℚ) ≤
            ((7 * (1000000 * area cand + 1) : ℤ) : ℚ) := by exact_mod_cast h
        push_cast at this ⊢
        linarith
      exact h'
    · intro h
      have h' : ((20000000 * interArea kept cand : ℤ) : ℚ) ≤
          ((7 * (1000000 * area cand + 1) : ℤ) : ℚ) := by
        push_cast
        push_cast at h
        linarith
      exact_mod_cast h'
  · rw [if_neg hD]
    have hDne : (1000000 * area cand + 1 : ℤ) ≠ 0 := by omega
    have hDlt : (1000000 * area cand + 1 : ℤ) < 0 := by omega
    have hDQ : ((1000000 * area cand + 1 : ℤ) : ℚ) < 0 := by exact_mod_cast hDlt
    rw [div_le_iff_of_neg hDQ]
    simp only [decide_eq_true_eq]
    constructor
    · intro h
      have h' : ((7 * (1000000 * area cand + 1) : ℤ) : ℚ) ≤
          ((20000000 * interArea kept cand : ℤ) : ℚ) := by exact_mod_cast h
      push_cast at h'
      linarith
    · intro h
      have h' : ((7 * (1000000 * area cand + 1) : ℤ) : ℚ) ≤
          ((20000000 * interArea kept cand : ℤ) : ℚ) := by
        push_cast
        linarith
      exact_mod_cast h'

/-! ## NMS structural lemmas -/

theorem nmsLoop_sublist : ∀ (fuel : ℕ) (l : List Box), (nmsLoop fuel l).Sublist l := by
  intro fuel
  induction fuel with
  | zero => intro l; exact List.nil_sublist l
  | succ fuel ih =>
      intro l
      cases l with
      | nil => exact List.Sublist.refl []
      | cons b rest =>
          show (b :: nmsLoop fuel (rest.filter (fun c => overlapLeThresh b c))).Sublist (b :: rest)
          exact List.Sublist.cons₂ b
            ((ih _).trans (List.filter_sublist rest))

theorem nmsLoop_pairwise : ∀ (fuel : ℕ) (l : List Box),
    (nmsLoop fuel l).Pairwise (fun a b => overlapLeThresh a b = true) := by
  intro fuel
  induction fuel with
  | zero => intro l; exact List.Pairwise.nil
  | succ fuel ih =>
      intro l
      cases l with
      | nil => exact List.Pairwise.nil
      | cons b rest =>
          show (b :: nmsLoop fuel (rest.filter (fun c => overlapLeThresh b c))).Pairwise _
          refine List.pairwise_cons.mpr ⟨?_, ih _⟩
          intro x hx
          have hx' : x ∈ rest.filter (fun c => overlapLeThresh b c) :=
            (nmsLoop_sublist fuel _).subset hx
          exact List.of_mem_filter hx'

theorem nmsLoop_eq_self : ∀ (fuel : ℕ) (l : List Box), l.length ≤ fuel →
    l.Pairwise (fun a b => overlapLeThresh a b = true) → nmsLoop fuel l = l := by
  intro fuel
  induction fuel with
  | zero =>
      intro l hlen _
      have hl : l = [] := List.length_eq_zero.mp (by omega)
      subst hl
      rfl
  | succ fuel ih =>
      intro l hlen hp
      cases l with
      | nil => rfl
      | cons b rest =>
          rcases List.pairwise_cons.mp hp with ⟨hb, hrest⟩
          show b :: nmsLoop fuel (rest.filter (fun c => overlapLeThresh b c)) = b :: rest
          rw [List.filter_eq_self.mpr hb]
          have hlen' : rest.length ≤ fuel := by
            simp only [List.length_cons] at hlen
            omega
          rw [ih rest hlen' hrest]

theorem boxDescLe_trans (a b c : Box) :
    boxDescLe a b = true → boxDescLe b c = true → boxDescLe a c = true := by
  simp only [boxDescLe, decide_eq_true_eq]
  omega

theorem boxDescLe_total (a b : Box) : boxDescLe a b = true ∨ boxDescLe b a = true := by
  simp only [boxDescLe, decide_eq_true_eq]
  omega

theorem sortByAreaDesc_pairwise (boxes : List Box) :
    (sortByAreaDesc boxes).Pairwise (fun a b => boxDescLe a b = true) :=
  sortOrd_pairwise boxDescLe boxDescLe_trans boxDescLe_total boxes

theorem not_overlapGtQ_eq_overlapLeThresh (b c : Box) :
    (!(overlapGtQ b c)) = overlapLeThresh b c := by
  by_cases h : overlapQ b c ≤ 7 / 20
  · have hgt : ¬ (7 / 20 < overlapQ b c) := not_lt.mpr h
    rw [(overlapLeThresh_iff b c).mpr h]
    simp [overlapGtQ, hgt]
  · have hgt : 7 / 20 < overlapQ b c := lt_of_not_le h
    have hle : overlapLeThresh b c = false := by
      cases hb : overlapLeThresh b c
      · rfl
      · exact absurd ((overlapLeThresh_iff b c).mp hb) h
    rw [hle]
    simp [overlapGtQ, hgt]

theorem nmsSpecLoop_eq_nmsLoop : ∀ (fuel : ℕ) (l : List Box),
    nmsSpecLoop fuel l = nmsLoop fuel l := by
  intro fuel
  induction fuel with
  | zero => intro l; rfl
  | succ fuel ih =>
      intro l
      cases l with
      | nil => rfl
      | cons b rest =>
          show b :: nmsSpecLoop fuel (rest.filter (fun c => !(overlapGtQ b c))) =
            b :: nmsLoop fuel (rest.filter (fun c => overlapLeThresh b c))
          rw [List.filter_congr (fun c _ => not_overlapGtQ_eq_overlapLeThresh b c), ih]

/-- Claim C2: `_non_max_suppression` is exactly the greedy area-sorted NMS the
spec describes: it coincides with the spec-modelled algorithm (sort by area
descending, keep the largest remaining box, discard any box whose overlap
`intersection-area / area-of-comparison-box` exceeds 0.35) on every input, and
on the two-box example — areas 100 and 80 with intersection 40, i.e. overlap
ratio 0.5 relative to the smaller box and therefore above the 0.35
threshold — the 80-area box is dropped and the 100-area box kept, in either
input order. -/
theorem nms_follows_spec_algorithm_and_tiebreak :
    (∀ boxes : List Box, non_max_suppression boxes = nmsSpec boxes)
    ∧ non_max_suppression [boxA, boxB] = [boxA]
    ∧ non_max_suppression [boxB, boxA] = [boxA]
    ∧ area boxA = 100 ∧ area boxB = 80
    ∧ 2 * interArea boxA boxB = area boxB
    ∧ 7 / 20 < overlapQ boxA boxB := by
  refine ⟨fun boxes => (nmsSpecLoop_eq_nmsLoop _ _).symm, by decide, by decide,
    by decide, by decide, by decide, ?_⟩
  have hI : interArea boxA boxB = 40 := by decide
  have hA : area boxB = 80 := by decide
  unfold overlapQ
  rw [hI, hA]
  norm_num

/-- Claim C3: NMS is idempotent — applying `_non_max_suppression` to its own
output returns that output unchanged (so in particular the same set of
boxes): the output is sorted by descending area and pairwise overlap-free at
the 0.35 threshold, so a second pass keeps every box. -/
theorem nms_idempotent :
    ∀ boxes : List Box,
      non_max_suppression (non_max_suppression boxes) = non_max_suppression boxes := by
  intro boxes
  have hsub : (non_max_suppression boxes).Sublist (sortByAreaDesc boxes) :=
    nmsLoop_sublist boxes.length (sortByAreaDesc boxes)
  have hsorted : (non_max_suppression boxes).Pairwise (fun a b => boxDescLe a b = true) :=
    (sortByAreaDesc_pairwise boxes).sublist hsub
  have hok : (non_max_suppression boxes).Pairwise (fun a b => overlapLeThresh a b = true) :=
    nmsLoop_pairwise boxes.length (sortByAreaDesc boxes)
  show nmsLoop (non_max_suppression boxes).length (sortByAreaDesc (non_max_suppression boxes)) = _
  unfold sortByAreaDesc
  rw [sortOrd_eq_self_of_sorted boxDescLe _ hsorted]
  exact nmsLoop_eq_self _ _ le_rfl hok

/-- Claim C4: rotation mapping.  First conjunct: a box detected at the +90°
(clockwise) rotation that exactly covers the rotated frame — `(0, 0, h, w)` in
rotated coordinates for an original `w × h` frame — maps back to
`(0, 0, w-1, h-1)`, i.e. a box covering the original frame to within the one
pixel lost to the `w-1`/`h-1` clamp bounds.  Second conjunct: every mapped
box, for every rotation and input rectangle, is clamped inside the frame with
a minimum size of 1×1. -/
theorem rotation_roundtrip_and_clamp :
    (∀ w h : ℤ, 2 ≤ w → 2 ≤ h →
      map_rotated_rect ⟨0, 0, h, w⟩ h w Rotation.rcw = ⟨0, 0, w - 1, h - 1⟩)
    ∧ (∀ (rect : Box) (rotation : Rotation) (w h : ℤ), 1 ≤ w → 1 ≤ h →
      0 ≤ (map_rotated_rect rect h w rotation).x
      ∧ 0 ≤ (map_rotated_rect rect h w rotation).y
      ∧ 1 ≤ (map_rotated_rect rect h w rotation).w
      ∧ 1 ≤ (map_rotated_rect rect h w rotation).h
      ∧ (map_rotated_rect rect h w rotation).x + (map_rotated_rect rect h w rotation).w ≤ w
      ∧ (map_rotated_rect rect h w rotation).y + (map_rotated_rect rect h w rotation).h ≤ h) := by
  constructor
  · intro w h hw hh
    simp only [map_rotated_rect, mapPoint, clip, Box.mk.injEq]
    refine ⟨?_, ?_, ?_, ?_⟩ <;> omega
  · intro rect rotation w h hw hh
    cases rotation <;>
      · simp only [map_rotated_rect, mapPoint, clip]
        refine ⟨?_, ?_, ?_, ?_, ?_, ?_⟩ <;> omega

/-- Witness for the rotation theorem at `w = 4`, `h = 3` and a concrete
off-frame rectangle. -/
theorem rotation_roundtrip_and_clamp_witness :
    map_rotated_rect ⟨0, 0, 3, 4⟩ 3 4 Rotation.rcw = ⟨0, 0, 4 - 1, 3 - 1⟩
    ∧ (0 ≤ (map_rotated_rect ⟨5, -2, 9, 9⟩ 3 4 Rotation.rccw).x
      ∧ 0 ≤ (map_rotated_rect ⟨5, -2, 9, 9⟩ 3 4 Rotation.rccw).y
      ∧ 1 ≤ (map_rotated_rect ⟨5, -2, 9, 9⟩ 3 4 Rotation.rccw).w
      ∧ 1 ≤ (map_rotated_rect ⟨5, -2, 9, 9⟩ 3 4 Rotation.rccw).h
      ∧ (map_rotated_rect ⟨5, -2, 9, 9⟩ 3 4 Rotation.rccw).x +
          (map_rotated_rect ⟨5, -2, 9, 9⟩ 3 4 Rotation.rccw).w ≤ 4
      ∧ (map_rotated_rect ⟨5, -2, 9, 9⟩ 3 4 Rotation.rccw).y +
          (map_rotated_rect ⟨5, -2, 9, 9⟩ 3 4 Rotation.rccw).h ≤ 3) :=
  ⟨rotation_roundtrip_and_clamp.1 4 3 (by decide) (by decide),
    rotation_roundtrip_and_clamp.2 ⟨5, -2, 9, 9⟩ Rotation.rccw 4 3 (by decide) (by decide)⟩

/-! ## Claim C5: count smoothing -/

theorem windowAfter_eq_drop (sw : ℕ) (raws : List ℕ) :
    windowAfter sw raws = raws.drop (raws.length - sw) := by
  induction raws using List.reverseRecOn with
  | nil => simp [windowAfter]
  | append_singleton cs c ih =>
      have hstep : windowAfter sw (cs ++ [c]) = updateWindow sw (windowAfter sw cs) c := by
        unfold windowAfter
        rw [List.foldl_append]
        rfl
      rw [hstep, ih]
      have hk : cs.length - sw ≤ cs.length := by omega
      unfold updateWindow
      rw [← List.drop_append_of_le_length hk]
      by_cases hsw : sw ≤ cs.length
      · rw [if_pos]
        · rw [List.tail_drop]
          congr 1
          simp only [List.length_append, List.length_singleton]
          omega
        · simp only [List.length_drop, List.length_append, List.length_singleton]
          omega
      · rw [if_neg]
        · congr 1
          simp only [List.length_append, List.length_singleton]
          omega
        · simp only [List.length_drop, List.length_append, List.length_singleton]
          omega

theorem windowAfter_length_le (sw : ℕ) (raws : List ℕ) :
    (windowAfter sw raws).length ≤ sw := by
  rw [windowAfter_eq_drop]
  simp only [List.length_drop]
  omega

theorem updateWindow_ne_nil (sw : ℕ) (window : List ℕ) (c : ℕ) (hsw : 1 ≤ sw) :
    (updateWindow sw window c).length ≠ 0 := by
  show (if sw < (window ++ [c]).length then (window ++ [c]).tail
      else (window ++ [c])).length ≠ 0
  by_cases hlt : sw < (window ++ [c]).length
  · rw [if_pos hlt]
    simp only [List.length_tail, List.length_append, List.length_singleton]
    simp only [List.length_append, List.length_singleton] at hlt
    omega
  · rw [if_neg hlt]
    simp

/-- Claim C5: the per-camera smoothing window holds the last
`smoothing_window` raw counts, oldest evicted first — after any call sequence
it equals the suffix of the raw-count sequence of length at most
`smoothing_window` — and each call displays the integer median of the updated
window (of however many samples exist).  For the spec's example, raw counts
`[2, 2, 2, 9, 2]` at depth 5 leave the window `[2, 2, 2, 9, 2]`, whose median
display is 2 at every step including the last. -/
theorem count_smoothing_fifo_median :
    (∀ (sw : ℕ) (raws : List ℕ), windowAfter sw raws = raws.drop (raws.length - sw))
    ∧ (∀ (sw : ℕ) (raws : List ℕ), (windowAfter sw raws).length ≤ sw)
    ∧ (∀ (sw : ℕ) (window : List ℕ) (c : ℕ), 1 ≤ sw →
        (detect_faces_count sw window c).2 = medianInt (updateWindow sw window c))
    ∧ windowAfter 5 [2, 2, 2, 9, 2] = [2, 2, 2, 9, 2]
    ∧ medianInt [2, 2, 2, 9, 2] = 2
    ∧ displaysFor 5 [2, 2, 2, 9, 2] = [2, 2, 2, 2, 2] := by
  refine ⟨windowAfter_eq_drop, windowAfter_length_le, ?_, by decide, by decide, by decide⟩
  intro sw window c hsw
  show smoothedDisplay (updateWindow sw window c) c = medianInt (updateWindow sw window c)
  unfold smoothedDisplay
  rw [if_neg]
  intro hempty
  exact updateWindow_ne_nil sw window c hsw (List.isEmpty_iff_length_eq_zero.mp hempty)

/-- Witness for the smoothing theorem: at depth 5 the fifth call on window
`[2, 2, 2, 9]` displays the median of the updated window. -/
theorem count_smoothing_fifo_median_witness :
    (detect_faces_count 5 [2, 2, 2, 9] 2).2 = medianInt (updateWindow 5 [2, 2, 2, 9] 2) :=
  count_smoothing_fifo_median.2.2.1 5 [2, 2, 2, 9] 2 (by decide)

/-- Claim C6: cache freshness.  The display-pipeline lookup of `process_frame`
returns a hit exactly when the stored entry exists and its age `now - timestamp`
is at most the 0.2 s TTL, and the weapon detector's own lookup at its 0.4 s
TTL returns a hit exactly when the entry exists and is at most 0.4 s old; in
particular an entry older than its TTL is never returned as a hit. -/
theorem cache_hit_only_when_fresh :
    (∀ (B : Type) (cache_bucket : String → Option (CacheEntry B))
        (detection_type : String) (now : ℚ) (r : B),
      frameCacheLookup cache_bucket detection_type now = some r ↔
        ∃ e, cache_bucket detection_type = some e ∧ r = e.frame
          ∧ now - e.timestamp ≤ 1 / 5)
    ∧ (∀ (F : Type) (cache : ℤ → Option (WeaponCacheEntry F)) (k : ℤ) (now : ℚ)
        (e : WeaponCacheEntry F),
      weaponCacheLookup cache (some k) now weapon_cache_ttl = some e ↔
        cache k = some e ∧ now - e.timestamp ≤ 2 / 5) := by
  constructor
  · intro B cache_bucket detection_type now r
    unfold frameCacheLookup FRAME_CACHE_TTL
    cases hb : cache_bucket detection_type with
    | none => simp
    | some e =>
        show (if now - e.timestamp ≤ 1 / 5 then some e.frame else none) = some r ↔ _
        by_cases hf : now - e.timestamp ≤ 1 / 5
        · rw [if_pos hf]
          simp only [Option.some.injEq]
          constructor
          · intro h
            exact ⟨e, rfl, h.symm, hf⟩
          · rintro ⟨e2, he2, hr, _⟩
            subst he2
            exact hr.symm
        · rw [if_neg hf]
          constructor
          · intro h
            exact absurd h (by simp)
          · rintro ⟨e2, he2, _, hfr⟩
            injection he2 with he2
            subst he2
            exact absurd hfr hf
  · intro F cache k now e
    unfold weaponCacheLookup weapon_cache_ttl
    show (match cache k with
      | none => none
      | some cached =>
          if now - cached.timestamp ≤ 2 / 5 then some cached else none) = some e ↔ _
    cases hc : cache k with
    | none => simp
    | some cached =>
        show (if now - cached.timestamp ≤ 2 / 5 then some cached else none) = some e ↔ _
        by_cases hf : now - cached.timestamp ≤ 2 / 5
        · rw [if_pos hf]
          simp only [Option.some.injEq]
          constructor
          · intro h
            subst h
            exact ⟨rfl, hf⟩
          · rintro ⟨he, _⟩
            exact he
        · rw [if_neg hf]
          constructor
          · intro h
            exact absurd h (by simp)
          · rintro ⟨he, hfr⟩
            simp only [Option.some.injEq] at he
            subst he
            exact absurd hfr hf

/-- Claim C8: graceful degradation of the threat stage.  For every non-null
frame, when the weapon model failed to load (`model_loaded = False`),
`detect_weapons` returns the original input frame with `weapon_detected =
False` and an empty detection list, leaving the cache untouched; being a total
function of its inputs, it raises no error. -/
theorem weapon_stage_graceful_degradation :
    ∀ (F : Type) (confidence_threshold : ℚ) (target_classes : List String)
      (cache : ℤ → Option (WeaponCacheEntry F)) (cache_ttl : ℚ)
      (backend : WeaponBackend F) (f : F) (camera_id : Option ℤ) (now : ℚ),
      detect_weapons
          ⟨false, confidence_threshold, target_classes, cache, cache_ttl, backend⟩
          (some f) camera_id now =
        ((some f, false, []), cache) := by
  intro F confidence_threshold target_classes cache cache_ttl backend f camera_id now
  rfl

/-- Claim C9: for a camera with an available frame, a `process_frame` request
whose `detection_type` matches none of the four dispatch branches — an unknown
type, or a known type whose stage is disabled in `settings` — encodes and
returns the raw camera frame with no detector invoked and no overlay drawn. -/
theorem unknown_or_disabled_stage_returns_raw_frame :
    ∀ (F B : Type) (S : Stages F B) (emptyB : B) (st : Settings) (f : F)
      (camera_id : ℕ) (detection_type : String),
      (detection_type ∉ (["crowd", "face", "weapon", "all"] : List String) →
        computeFrame S emptyB st (some f) camera_id detection_type =
          (S.encode f).getD emptyB)
      ∧ (st.enable_crowd_detection = false →
        computeFrame S emptyB st (some f) camera_id "crowd" = (S.encode f).getD emptyB)
      ∧ (st.enable_face_recognition = false →
        computeFrame S emptyB st (some f) camera_id "face" = (S.encode f).getD emptyB)
      ∧ (st.enable_weapon_detection = false →
        computeFrame S emptyB st (some f) camera_id "weapon" = (S.encode f).getD emptyB) := by
  intro F B S emptyB st f camera_id detection_type
  refine ⟨?_, ?_, ?_, ?_⟩
  · intro hmem
    simp only [List.mem_cons, List.not_mem_nil, or_false, not_or] at hmem
    obtain ⟨h1, h2, h3, h4⟩ := hmem
    simp [computeFrame, h1, h2, h3, h4]
  · intro hflag
    simp [computeFrame, hflag]
  · intro hflag
    simp [computeFrame, hflag]
  · intro hflag
    simp [computeFrame, hflag]

/-- Witness for the dispatch theorem: with concrete ℕ-valued stages, an
unrecognised detection type returns the encoding of the raw frame, and
disabling crowd detection makes the crowd request return the raw frame. -/
theorem unknown_or_disabled_stage_returns_raw_frame_witness :
    (("thermal" : String) ∉ (["crowd", "face", "weapon", "all"] : List String)
      ∧ computeFrame natStages 0 defaultSettings (some 3) 0 "thermal" =
          (natStages.encode 3).getD 0)
    ∧ ((⟨8, false, true, true, true⟩ : Settings).enable_crowd_detection = false
      ∧ computeFrame natStages 0 ⟨8, false, true, true, true⟩ (some 3) 0 "crowd" =
          (natStages.encode 3).getD 0) :=
  ⟨⟨by decide,
      (unknown_or_disabled_stage_returns_raw_frame ℕ ℕ natStages 0 defaultSettings 3 0
        "thermal").1 (by decide)⟩,
    ⟨rfl,
      (unknown_or_disabled_stage_returns_raw_frame ℕ ℕ natStages 0
        ⟨8, false, true, true, true⟩ 3 0 "crowd").2.1 rfl⟩⟩

/-! ## Claim C7: reference upload atomicity -/

theorem upload_reference_face_cases {Img Emb Desc Hist : Type}
    (O : FaceOracles Img Emb Desc Hist) (C : FaceConfig)
    (st : FaceRefState Img Emb Desc Hist) (image_data : List ℕ) (name : String) :
    upload_reference_face O C st image_data name = (false, st)
    ∨ (upload_reference_face O C st image_data name).1 = true := by
  unfold upload_reference_face
  dsimp only
  repeat' split
  all_goals simp

/-- Claim C7: reference upload is atomic on failure.  Whenever
`upload_reference_face` reports failure (`False`) — in particular whenever the
byte string does not decode to an image, and likewise when no face is
detected or too few template features are extracted — the whole reference
state (`reference_embedding`, `reference_template`, `reference_descriptors`,
`reference_histogram`, `reference_name`) is returned unchanged. -/
theorem reference_upload_unchanged_on_failure :
    ∀ (Img Emb Desc Hist : Type) (O : FaceOracles Img Emb Desc Hist) (C : FaceConfig)
      (st : FaceRefState Img Emb Desc Hist) (image_data : List ℕ) (name : String),
      ((upload_reference_face O C st image_data name).1 = false →
        (upload_reference_face O C st image_data name).2 = st)
      ∧ (C.face_cascade_loaded = true → O.decode image_data = none →
        upload_reference_face O C st image_data name = (false, st)) := by
  intro Img Emb Desc Hist O C st image_data name
  constructor
  · intro hfail
    rcases upload_reference_face_cases O C st image_data name with h | h
    · rw [h]
    · rw [h] at hfail
      exact absurd hfail (by simp)
  · intro hcascade hdecode
    unfold upload_reference_face
    rw [if_neg (by rw [hcascade]; simp), hdecode]

/-- Witness for the upload theorem: with the rejecting decoder, uploading any
bytes over a populated reference state fails and leaves the state intact. -/
theorem reference_upload_unchanged_on_failure_witness :
    ((upload_reference_face rejectingFaceOracles ⟨true, "facenet", true⟩ someFaceState
        [1, 2, 3] "Bob").1 = false →
      (upload_reference_face rejectingFaceOracles ⟨true, "facenet", true⟩ someFaceState
        [1, 2, 3] "Bob").2 = someFaceState)
    ∧ (upload_reference_face rejectingFaceOracles ⟨true, "facenet", true⟩ someFaceState
        [1, 2, 3] "Bob").2 = someFaceState :=
  ⟨(reference_upload_unchanged_on_failure ℕ ℕ ℕ ℕ rejectingFaceOracles ⟨true, "facenet", true⟩
      someFaceState [1, 2, 3] "Bob").1,
    (reference_upload_unchanged_on_failure ℕ ℕ ℕ ℕ rejectingFaceOracles ⟨true, "facenet", true⟩
      someFaceState [1, 2, 3] "Bob").1 rfl⟩

/-! ## Claim C10: substring-based weapon class filtering -/

theorem leadsWith_iff (n : List Char) : ∀ h : List Char,
    leadsWith n h = true ↔ ∃ rest, h = n ++ rest := by
  induction n with
  | nil =>
      intro h
      simp [leadsWith]
  | cons a as ih =>
      intro h
      cases h with
      | nil =>
          simp only [leadsWith]
          constructor
          · intro hfalse
            exact absurd hfalse (by simp)
          · rintro ⟨rest, hrest⟩
            exact absurd hrest (by simp)
      | cons b bs =>
          simp only [leadsWith, Bool.and_eq_true, beq_iff_eq, ih bs]
          constructor
          · rintro ⟨hab, rest, hrest⟩
            subst hab
            exact ⟨rest, by rw [hrest]; rfl⟩
          · rintro ⟨rest, hrest⟩
            simp only [List.cons_append, List.cons.injEq] at hrest
            exact ⟨hrest.1.symm, rest, hrest.2⟩

theorem hasSub_iff (n : List Char) : ∀ h : List Char,
    hasSub n h = true ↔ ∃ pre post, h = pre ++ n ++ post := by
  intro h
  induction h with
  | nil =>
      simp only [hasSub, leadsWith_iff]
      constructor
      · rintro ⟨rest, hrest⟩
        exact ⟨[], rest, by simpa using hrest⟩
      · rintro ⟨pre, post, hpp⟩
        rcases List.append_eq_nil.mp ((List.append_assoc pre n post ▸ hpp).symm) with ⟨h1, h2⟩
        rcases List.append_eq_nil.mp h2 with ⟨h3, h4⟩
        exact ⟨[], by simp [h3, h4]⟩
  | cons b bs ih =>
      simp only [hasSub, Bool.or_eq_true, leadsWith_iff, ih]
      constructor
      · rintro (⟨rest, hrest⟩ | ⟨pre, post, hpp⟩)
        · exact ⟨[], rest, by simpa using hrest⟩
        · exact ⟨b :: pre, post, by simp [hpp]⟩
      · rintro ⟨pre, post, hpp⟩
        cases pre with
        | nil =>
            left
            exact ⟨post, by simpa using hpp⟩
        | cons p ps =>
            right
            simp only [List.cons_append, List.cons.injEq] at hpp
            exact ⟨ps, post, hpp.2⟩

/-- Claim C10: `_is_target_class` is substring-based keyword matching.  With
the configured target classes `['knife', 'gun']`, a label is accepted exactly
when its lower-casing equals a target class or contains an expansion keyword
of some target class as a substring; since both keyword sets contain
"weapon", any label containing "weapon" — and any label containing "gun",
"pistol", "firearm", "revolver", "handgun", "knife", "dagger", "blade" or
"sword" — is accepted, while an unrelated label is not. -/
theorem weapon_class_filter_substring_matching :
    (∀ label : String,
      is_target_class default_target_classes (some label) = true ↔
        (lowerStr label ∈ default_target_classes ∨
          ∃ key ∈ default_target_classes, ∃ kw ∈ keywordMap key,
            ∃ pre post : List Char, (lowerStr label).data = pre ++ kw.data ++ post))
    ∧ is_target_class default_target_classes (some "toy WEAPON replica") = true
    ∧ is_target_class default_target_classes (some "ray-gun") = true
    ∧ is_target_class default_target_classes (some "Pistol") = true
    ∧ is_target_class default_target_classes (some "firearm cabinet") = true
    ∧ is_target_class default_target_classes (some "revolver") = true
    ∧ is_target_class default_target_classes (some "handgun") = true
    ∧ is_target_class default_target_classes (some "swiss knife") = true
    ∧ is_target_class default_target_classes (some "dagger") = true
    ∧ is_target_class default_target_classes (some "razor blade") = true
    ∧ is_target_class default_target_classes (some "sword") = true
    ∧ is_target_class default_target_classes (some "banana") = false := by
  refine ⟨?_, by decide, by decide, by decide, by decide, by decide, by decide, by decide,
    by decide, by decide, by decide, by decide⟩
  intro label
  unfold is_target_class
  dsimp only [Option.getD]
  by_cases hc : default_target_classes.contains (lowerStr label) = true
  · rw [if_pos hc]
    simp only [true_iff]
    left
    simpa using hc
  · rw [if_neg hc]
    have hnmem : lowerStr label ∉ default_target_classes := by
      intro hmem
      exact hc (by simpa using hmem)
    simp only [List.any_eq_true, hasSub_iff]
    constructor
    · rintro ⟨key, hkey, kw, hkw, pre, post, hpp⟩
      exact Or.inr ⟨key, hkey, kw, hkw, pre, post, hpp⟩
    · rintro (hmem | ⟨key, hkey, kw, hkw, pre, post, hpp⟩)
      · exact absurd hmem hnmem
      · exact ⟨key, hkey, kw, hkw, pre, post, hpp⟩
